import Mathlib

/-!
Verification of the VSTP protocol core: wire types, frame codec, fragmenter,
reassembler and the UDP/TCP server frame-handling logic.

Bytes are modelled as `Nat` values (< 256 where wire-validity matters), byte
strings as `List Nat`.  The codec, fragmenter and reassembler modules are not
present in the source tree (only their callers are), so those definitions are
modelled from the specification; the UDP and TCP server logic is translated
directly from `src/udp/server.rs` and `src/tcp/server.rs`.
-/

namespace VSTP

/-- Modelled from the spec: `src/types.rs` is absent.  Frame types with their
wire byte values `HELLO=0x01 .. ERR=0x08`. -/
inductive FrameType where
  | Hello
  | Welcome
  | Data
  | Ping
  | Pong
  | Bye
  | Ack
  | Err
deriving DecidableEq

def FrameType.toByte : FrameType → Nat
  | .Hello => 1
  | .Welcome => 2
  | .Data => 3
  | .Ping => 4
  | .Pong => 5
  | .Bye => 6
  | .Ack => 7
  | .Err => 8

def FrameType.ofByte (b : Nat) : Option FrameType :=
  if b = 1 then some .Hello
  else if b = 2 then some .Welcome
  else if b = 3 then some .Data
  else if b = 4 then some .Ping
  else if b = 5 then some .Pong
  else if b = 6 then some .Bye
  else if b = 7 then some .Ack
  else if b = 8 then some .Err
  else none

/-- Modelled from the spec: flag bit `REQ_ACK = 0x01`. -/
def REQ_ACK : Nat := 1
/-- Modelled from the spec: flag bit `CRC = 0x02`. -/
def CRC : Nat := 2
/-- Modelled from the spec: flag bit `FRAG = 0x04`. -/
def FRAG : Nat := 4
/-- Modelled from the spec: flag bit `COMP = 0x08`. -/
def COMP : Nat := 8

/-- Test of one flag bit `b` (a power of two) in a flags byte. -/
def hasFlag (x b : Nat) : Bool := x / b % 2 = 1

/-- Set a flag bit `b` (a power of two) in a flags byte. -/
def setFlag (x b : Nat) : Nat := if hasFlag x b then x else x + b

/-- Clear a flag bit `b` (a power of two) in a flags byte. -/
def clearFlag (x b : Nat) : Nat := if hasFlag x b then x - b else x

/-- Modelled from the spec: `src/types.rs` is absent.  One binary key/value
header. -/
structure Header where
  key : List Nat
  value : List Nat
deriving DecidableEq

/-- Modelled from the spec: `src/types.rs` is absent.  One VSTP frame. -/
structure Frame where
  version : Nat
  typ : FrameType
  flags : Nat
  headers : List Header
  payload : List Nat
deriving DecidableEq

def VSTP_VERSION : Nat := 1

/-- Modelled from the spec: the error taxonomy of §7. -/
inductive VstpError where
  | Io
  | BadMagic
  | UnsupportedVersion
  | UnknownType
  | MalformedHeader
  | FrameTooLarge
  | CrcMismatch
  | AckTimeout
  | InvalidFragment
deriving DecidableEq

instance {ε α : Type} [DecidableEq ε] [DecidableEq α] : DecidableEq (Except ε α) :=
  fun a b =>
    match a, b with
    | .ok x, .ok y => decidable_of_iff (x = y) (by simp)
    | .error e, .error e' => decidable_of_iff (e = e') (by simp)
    | .ok _, .error _ => isFalse (fun h => Except.noConfusion h)
    | .error _, .ok _ => isFalse (fun h => Except.noConfusion h)

/-- One step of the reflected CRC32 bit loop (polynomial `0xEDB88320`). -/
def crc32Step (c : Nat) : Nat := if c % 2 = 1 then (c / 2) ^^^ 0xEDB88320 else c / 2

def crc32Bits : Nat → Nat → Nat
  | 0, c => c
  | n + 1, c => crc32Bits n (crc32Step c)

/-- Modelled from the spec: CRC32, IEEE polynomial `0xEDB88320`, reflected,
init `0xFFFFFFFF`, xor-out `0xFFFFFFFF`. -/
def crc32 (data : List Nat) : Nat :=
  (data.foldl (fun c b => crc32Bits 8 (c ^^^ b)) 0xFFFFFFFF) ^^^ 0xFFFFFFFF

/-- Big-endian 4-byte encoding of a 32-bit value. -/
def be32 (n : Nat) : List Nat :=
  [n / 16777216 % 256, n / 65536 % 256, n / 256 % 256, n % 256]

/-- One encoded header entry: `KLEN | KEY | VLEN | VALUE`. -/
def encodeHeader (h : Header) : List Nat :=
  h.key.length :: (h.key ++ h.value.length :: h.value)

/-- The encoded header section: concatenation of the entries. -/
def headersBytes (hs : List Header) : List Nat :=
  (hs.map encodeHeader).flatten

/-- Modelled from the spec: `src/frame.rs` is absent.  The encoded frame
without the CRC trailer: 12-byte fixed prefix (magic `0x56 0x54`, version,
type, flags, `HDR_LEN` little-endian 16, `PAY_LEN` big-endian 32, one reserved
byte), then the header section, then the payload. -/
def bodyBytes (f : Frame) : List Nat :=
  86 :: 84 :: f.version :: f.typ.toByte :: f.flags ::
  ((headersBytes f.headers).length % 256) :: ((headersBytes f.headers).length / 256 % 256) ::
  (f.payload.length / 16777216 % 256) :: (f.payload.length / 65536 % 256) ::
  (f.payload.length / 256 % 256) :: (f.payload.length % 256) :: 0 ::
  (headersBytes f.headers ++ f.payload)

/-- The CRC trailer: present iff the `CRC` flag is set. -/
def crcTrailer (f : Frame) : List Nat :=
  if hasFlag f.flags CRC then be32 (crc32 (headersBytes f.headers ++ f.payload)) else []

/-- Modelled from the spec: the full encoding of a frame. -/
def encodeBytes (f : Frame) : List Nat := bodyBytes f ++ crcTrailer f

/-- Modelled from the spec: `src/frame.rs` is absent.  The encoder: fails with
`FrameTooLarge` when the header section exceeds 16 bits or the payload exceeds
32 bits. -/
def encode_frame (f : Frame) : Except VstpError (List Nat) :=
  if (headersBytes f.headers).length ≤ 65535 ∧ f.payload.length ≤ 4294967295 then
    .ok (encodeBytes f)
  else .error .FrameTooLarge

/-- Header-section parser with explicit fuel (one unit per entry).  A trailing
partial entry yields `none` (`MalformedHeader`). -/
def parseHeadersAux : Nat → List Nat → Option (List Header)
  | _, [] => some []
  | 0, _ :: _ => none
  | fuel + 1, klen :: rest =>
    if klen ≤ rest.length then
      match rest.drop klen with
      | [] => none
      | vlen :: rest2 =>
        if vlen ≤ rest2.length then
          (parseHeadersAux fuel (rest2.drop vlen)).map
            (fun hs => ⟨rest.take klen, rest2.take vlen⟩ :: hs)
        else none
    else none

def parseHeaders (l : List Nat) : Option (List Header) :=
  parseHeadersAux l.length l

/-- Modelled from the spec: `src/frame.rs` is absent.  The streaming decoder:
given a buffer and `max_frame_size`, returns `ok none` (need more), an error,
or the decoded frame together with the unconsumed remainder of the buffer. -/
def try_decode_frame (buf : List Nat) (maxSize : Nat) :
    Except VstpError (Option (Frame × List Nat)) :=
  match buf with
  | m0 :: m1 :: ver :: ty :: fl :: h0 :: h1 :: p0 :: p1 :: p2 :: p3 :: _pad :: body =>
    if m0 = 86 ∧ m1 = 84 then
      if ver = 1 then
        match FrameType.ofByte ty with
        | some t =>
          if h0 + 256 * h1 ≤ maxSize ∧
             p0 * 16777216 + p1 * 65536 + p2 * 256 + p3 ≤ maxSize then
            if h0 + 256 * h1 + (p0 * 16777216 + p1 * 65536 + p2 * 256 + p3) +
                 (if hasFlag fl CRC then 4 else 0) ≤ body.length then
              match parseHeaders (body.take (h0 + 256 * h1)) with
              | some hs =>
                if hasFlag fl CRC then
                  if (body.drop (h0 + 256 * h1 +
                        (p0 * 16777216 + p1 * 65536 + p2 * 256 + p3))).take 4 =
                      be32 (crc32 (body.take (h0 + 256 * h1) ++
                        (body.drop (h0 + 256 * h1)).take
                          (p0 * 16777216 + p1 * 65536 + p2 * 256 + p3))) then
                    .ok (some (⟨1, t, fl, hs,
                      (body.drop (h0 + 256 * h1)).take
                        (p0 * 16777216 + p1 * 65536 + p2 * 256 + p3)⟩,
                      body.drop (h0 + 256 * h1 +
                        (p0 * 16777216 + p1 * 65536 + p2 * 256 + p3) + 4)))
                  else .error .CrcMismatch
                else
                  .ok (some (⟨1, t, fl, hs,
                    (body.drop (h0 + 256 * h1)).take
                      (p0 * 16777216 + p1 * 65536 + p2 * 256 + p3)⟩,
                    body.drop (h0 + 256 * h1 +
                      (p0 * 16777216 + p1 * 65536 + p2 * 256 + p3))))
              | none => .error .MalformedHeader
            else .ok none
          else .error .FrameTooLarge
        | none => .error .UnknownType
      else .error .UnsupportedVersion
    else .error .BadMagic
  | _ => .ok none

/-- Validity of a frame: version 1, byte-sized flags, byte-sized header keys
and values with byte-valued contents, byte-valued payload, and the two length
fields within their wire widths. -/
def Frame.Valid (f : Frame) : Prop :=
  f.version = 1 ∧ f.flags < 256 ∧
  (∀ h ∈ f.headers, h.key.length ≤ 255 ∧ h.value.length ≤ 255 ∧
    (∀ b ∈ h.key, b < 256) ∧ (∀ b ∈ h.value, b < 256)) ∧
  (∀ b ∈ f.payload, b < 256) ∧
  (headersBytes f.headers).length ≤ 65535 ∧ f.payload.length ≤ 4294967295

instance (f : Frame) : Decidable f.Valid := by
  unfold Frame.Valid; infer_instance

/-! ### Decimal strings, `u64` parsing, UTF-8 validity -/

/-- Decimal digits with explicit fuel (the value itself always suffices). -/
def decStrAux : Nat → Nat → List Nat
  | 0, n => [48 + n % 10]
  | fuel + 1, n =>
    if n < 10 then [48 + n]
    else decStrAux fuel (n / 10) ++ [48 + n % 10]

/-- ASCII decimal digits of `n`, most significant first (`Display` of an
unsigned integer). -/
def decStr (n : Nat) : List Nat := decStrAux n n

/-- Rust `str::parse::<u64>`: an optional leading `+`, then one or more
decimal digits, rejecting values that do not fit in 64 bits. -/
def parseU64 (bs : List Nat) : Option Nat :=
  let ds := if bs.headD 0 = 43 then bs.tail else bs
  if ds = [] then none
  else if ds.all (fun b => decide (48 ≤ b) && decide (b ≤ 57)) then
    let v := ds.foldl (fun acc b => acc * 10 + (b - 48)) 0
    if v < 18446744073709551616 then some v else none
  else none

/-- A UTF-8 continuation byte (`0x80..0xBF`). -/
def utf8Cont (b : Nat) : Bool := decide (128 ≤ b) && decide (b ≤ 191)

/-- The UTF-8 validation automaton.  State 0 expects a lead byte; states 1-3
expect that many generic continuation bytes; states 4-7 are the
range-restricted second bytes after lead bytes `E0`, `ED`, `F0`, `F4`. -/
def utf8Aux : Nat → List Nat → Bool
  | s, [] => decide (s = 0)
  | s, b :: rest =>
    if s = 0 then
      if b ≤ 127 then utf8Aux 0 rest
      else if 194 ≤ b ∧ b ≤ 223 then utf8Aux 1 rest
      else if b = 224 then utf8Aux 4 rest
      else if (225 ≤ b ∧ b ≤ 236) ∨ (238 ≤ b ∧ b ≤ 239) then utf8Aux 2 rest
      else if b = 237 then utf8Aux 5 rest
      else if b = 240 then utf8Aux 6 rest
      else if 241 ≤ b ∧ b ≤ 243 then utf8Aux 3 rest
      else if b = 244 then utf8Aux 7 rest
      else false
    else if s = 1 then if utf8Cont b then utf8Aux 0 rest else false
    else if s = 2 then if utf8Cont b then utf8Aux 1 rest else false
    else if s = 3 then if utf8Cont b then utf8Aux 2 rest else false
    else if s = 4 then if 160 ≤ b ∧ b ≤ 191 then utf8Aux 1 rest else false
    else if s = 5 then if 128 ≤ b ∧ b ≤ 159 then utf8Aux 1 rest else false
    else if s = 6 then if 144 ≤ b ∧ b ≤ 191 then utf8Aux 2 rest else false
    else if s = 7 then if 128 ≤ b ∧ b ≤ 143 then utf8Aux 2 rest else false
    else false

/-- Rust `str::from_utf8` validity: the standard UTF-8 well-formedness table
(no overlong forms, no surrogates, max `U+10FFFF`). -/
def isValidUtf8 (l : List Nat) : Bool := utf8Aux 0 l

/-! ### Reserved header keys -/

/-- The bytes of `"frag-id"`. -/
def fragIdKey : List Nat := [102, 114, 97, 103, 45, 105, 100]
/-- The bytes of `"frag-index"`. -/
def fragIndexKey : List Nat := [102, 114, 97, 103, 45, 105, 110, 100, 101, 120]
/-- The bytes of `"frag-total"`. -/
def fragTotalKey : List Nat := [102, 114, 97, 103, 45, 116, 111, 116, 97, 108]
/-- The bytes of `"msg-id"`. -/
def msgIdKey : List Nat := [109, 115, 103, 45, 105, 100]

/-- A header that is not one of the three fragment headers
(`src/udp/server.rs`, the `retain` in `handle_frame`). -/
def nonFragHeader (h : Header) : Bool :=
  !(decide (h.key = fragIdKey) || decide (h.key = fragIndexKey) ||
    decide (h.key = fragTotalKey))

/-! ### Fragmenter (modelled from the spec, `src/udp/client.rs` is absent) -/

/-- Modelled from the spec: `MAX_DATAGRAM_SIZE = 1200`. -/
def MAX_DATAGRAM_SIZE : Nat := 1200

/-- Modelled from the spec: the per-fragment payload chunk size the fragmenter
targets so each fragment datagram stays within `MAX_DATAGRAM_SIZE`. -/
def FRAG_CHUNK_SIZE : Nat := 1150

/-- Chunk splitting with explicit fuel (at least one payload byte is consumed
per produced chunk, so `l.length` fuel always suffices). -/
def chunkSplitAux : Nat → List Nat → List (List Nat)
  | _, [] => []
  | 0, _ :: _ => []
  | fuel + 1, a :: t =>
    (a :: t).take FRAG_CHUNK_SIZE :: chunkSplitAux fuel ((a :: t).drop FRAG_CHUNK_SIZE)

/-- Split a payload into contiguous chunks of `FRAG_CHUNK_SIZE` bytes (the
last chunk possibly shorter); the empty payload gives no chunks. -/
def chunkSplit (l : List Nat) : List (List Nat) :=
  chunkSplitAux l.length l

/-- The three fragment headers carried by the `i`-th fragment of a group of
`total` fragments with group id `k`. -/
def fragHeaders (k total i : Nat) : List Header :=
  [⟨fragIdKey, decStr k⟩, ⟨fragIndexKey, decStr i⟩, ⟨fragTotalKey, decStr total⟩]

/-- Modelled from the spec (§4.2): the `i`-th fragment frame: a copy of the
original with the `FRAG` flag set, `REQ_ACK` cleared on all but the last
fragment, the payload replaced by the `i`-th chunk, and the three fragment
headers appended. -/
def mkFragmentFrame (f : Frame) (k total i : Nat) (chunk : List Nat) : Frame :=
  { version := f.version
    typ := f.typ
    flags := if i + 1 = total then setFlag f.flags FRAG
             else clearFlag (setFlag f.flags FRAG) REQ_ACK
    headers := f.headers ++ fragHeaders k total i
    payload := chunk }

/-- Modelled from the spec: `src/udp/client.rs` is absent.  Fragment a frame
whose payload is oversized into fragment frames, in ascending index order,
under the fresh group id `k`. -/
def fragmentFrame (f : Frame) (k : Nat) : List Frame :=
  (List.range (chunkSplit f.payload).length).map
    (fun i => mkFragmentFrame f k (chunkSplit f.payload).length i
      ((chunkSplit f.payload).getD i []))

/-! ### Reassembler (modelled from the spec, `src/udp/reassembly.rs` is absent) -/

/-- Fragment info parsed from a fragment frame's headers
(`extract_fragment_info` of `src/udp/reassembly.rs`). -/
structure FragInfo where
  fragId : Nat
  fragIndex : Nat
  fragTotal : Nat
  data : List Nat
deriving DecidableEq

/-- The value of the first header with the given key. -/
def findHeaderValue (hs : List Header) (k : List Nat) : Option (List Nat) :=
  (hs.find? (fun h => decide (h.key = k))).map Header.value

/-- Modelled from the spec: parse `frag-id`, `frag-index`, `frag-total` from a
frame's headers; `none` when any is missing or malformed. -/
def extract_fragment_info (f : Frame) : Option FragInfo :=
  match findHeaderValue f.headers fragIdKey, findHeaderValue f.headers fragIndexKey,
      findHeaderValue f.headers fragTotalKey with
  | some iv, some xv, some tv =>
    match parseU64 iv, parseU64 xv, parseU64 tv with
    | some i, some x, some t => some ⟨i, x, t, f.payload⟩
    | _, _, _ => none
  | _, _, _ => none

/-- One reassembly group: expected fragment count, sparse chunk map, and the
first-seen timestamp. -/
structure ReasmGroup where
  total : Nat
  chunks : Nat → Option (List Nat)
  firstSeen : Nat

/-- The reassembly table, keyed by (peer address, fragment group id). -/
abbrev ReasmState : Type := List ((Nat × Nat) × ReasmGroup)

/-- Modelled from the spec: group expiry interval, 30 seconds. -/
def GROUP_TTL : Nat := 30

/-- Drop every group whose `firstSeen` is older than `GROUP_TTL`. -/
def sweepExpired (st : ReasmState) (now : Nat) : ReasmState :=
  st.filter (fun e => decide (now ≤ e.2.firstSeen + GROUP_TTL))

def lookupGroup (st : ReasmState) (key : Nat × Nat) : Option ReasmGroup :=
  (st.find? (fun e => decide (e.1 = key))).map (fun e => e.2)

def removeGroup (st : ReasmState) (key : Nat × Nat) : ReasmState :=
  st.filter (fun e => decide (¬e.1 = key))

def setGroup (st : ReasmState) (key : Nat × Nat) (g : ReasmGroup) : ReasmState :=
  removeGroup st key ++ [(key, g)]

/-- Modelled from the spec (§4.3): insert one fragment.  Drops invalid,
duplicate, or group-conflicting fragments; sweeps expired groups; on
completion removes the group and returns the joined payload. -/
def addFragment (st : ReasmState) (peer now : Nat) (info : FragInfo) :
    ReasmState × Option (List Nat) :=
  if info.fragTotal ≤ info.fragIndex then (st, none)
  else
    let st1 := sweepExpired st now
    let g := (lookupGroup st1 (peer, info.fragId)).getD ⟨info.fragTotal, fun _ => none, now⟩
    if (g.chunks info.fragIndex).isSome then (st1, none)
    else if info.fragTotal ≠ g.total then (st1, none)
    else
      let g' : ReasmGroup :=
        ⟨g.total, fun j => if j = info.fragIndex then some info.data else g.chunks j,
          g.firstSeen⟩
      if (List.range g'.total).all (fun j => (g'.chunks j).isSome) then
        (removeGroup st1 (peer, info.fragId),
         some ((List.range g'.total).map (fun j => (g'.chunks j).getD [])).flatten)
      else (setGroup st1 (peer, info.fragId) g', none)

/-! ### UDP server (`src/udp/server.rs`) -/

/-- `VstpUdpServer::extract_msg_id`: scan the headers for a `msg-id` whose
value is UTF-8 and parses as a `u64`.  A `msg-id` value that is not valid
UTF-8 aborts the whole scan (the `?` on `.ok()`); a value that is UTF-8 but
not a `u64` is skipped. -/
def extract_msg_id : List Header → Option Nat
  | [] => none
  | h :: rest =>
    if h.key = msgIdKey then
      if isValidUtf8 h.value then
        match parseU64 h.value with
        | some n => some n
        | none => extract_msg_id rest
      else none
    else extract_msg_id rest

/-- The id of the first `msg-id` header whose value parses as a `u64` (the
specification-side reading of "headers carry a parseable msg-id"). -/
def firstMsgId : List Header → Option Nat
  | [] => none
  | h :: rest =>
    if h.key = msgIdKey then
      match parseU64 h.value with
      | some n => some n
      | none => firstMsgId rest
    else firstMsgId rest

/-- The reassembly state holding exactly one group for `(peer, k)` of `total`
expected fragments, with the chunks at the indices in `seen` filled from `c`;
the empty state when `seen` is empty. -/
def groupStateOf (peer k total now : Nat) (c : Nat → List Nat) (seen : List Nat) :
    ReasmState :=
  if seen = [] then []
  else [((peer, k),
    ⟨total, fun j => if j ∈ seen then some (c j) else none, now⟩)]

/-- `VstpUdpServer::send_ack`: the synthesised ACK frame for message id `m`:
type `ACK`, empty flags, a single `msg-id` header, empty payload. -/
def ackFrame (m : Nat) : Frame :=
  ⟨VSTP_VERSION, .Ack, 0, [⟨msgIdKey, decStr m⟩], []⟩

/-- `VstpUdpServer::process_frame`: the ACK sent for a complete frame, when
`REQ_ACK` is set and a `msg-id` is extracted. -/
def processAckOf (f : Frame) : Option Frame :=
  if hasFlag f.flags REQ_ACK then (extract_msg_id f.headers).map ackFrame else none

/-- `VstpUdpServer::handle_frame`, lines 130-143: the frame delivered on group
completion: the completing fragment with its payload replaced by the
assembled bytes and the three fragment headers removed. -/
def completeFrame (g : Frame) (data : List Nat) : Frame :=
  { g with payload := data, headers := g.headers.filter nonFragHeader }

/-- `VstpUdpServer::handle_frame` after decoding: route through the
reassembler when fragment info is present, then `process_frame`.  Returns the
new reassembly state, the frame delivered to the user handler (if any) and
the ACK sent (if any). -/
def handleDecoded (st : ReasmState) (peer now : Nat) (f : Frame) :
    ReasmState × Option Frame × Option Frame :=
  match extract_fragment_info f with
  | some info =>
    match addFragment st peer now info with
    | (st', some data) =>
      (st', some (completeFrame f data), processAckOf (completeFrame f data))
    | (st', none) => (st', none, none)
  | none => (st, some f, processAckOf f)

/-- `VstpUdpServer::handle_frame`: decode one datagram (max frame size 65536);
on a decode error or an incomplete frame the datagram is dropped and no error
is surfaced (the warn-and-return-`Ok` paths). -/
def handle_frame (st : ReasmState) (peer now : Nat) (data : List Nat) :
    ReasmState × Option Frame × Option Frame :=
  match try_decode_frame data 65536 with
  | .ok (some (f, _)) => handleDecoded st peer now f
  | _ => (st, none, none)

/-- The UDP receive loop over a list of decoded frames from one peer:
accumulates delivered frames and sent ACKs. -/
def runFrames (st : ReasmState) (peer now : Nat) :
    List Frame → ReasmState × List Frame × List Frame
  | [] => (st, [], [])
  | f :: rest =>
    ((runFrames (handleDecoded st peer now f).1 peer now rest).1,
     (handleDecoded st peer now f).2.1.toList ++
       (runFrames (handleDecoded st peer now f).1 peer now rest).2.1,
     (handleDecoded st peer now f).2.2.toList ++
       (runFrames (handleDecoded st peer now f).1 peer now rest).2.2)

/-- `VstpUdpServer::run`: the receive loop over raw datagrams: every datagram
is handled; a failed datagram never stops the loop. -/
def udpRunBytes (st : ReasmState) (now : Nat) :
    List (Nat × List Nat) → ReasmState × List Frame × List Frame
  | [] => (st, [], [])
  | (peer, d) :: rest =>
    ((udpRunBytes (handle_frame st peer now d).1 now rest).1,
     (handle_frame st peer now d).2.1.toList ++
       (udpRunBytes (handle_frame st peer now d).1 now rest).2.1,
     (handle_frame st peer now d).2.2.toList ++
       (udpRunBytes (handle_frame st peer now d).1 now rest).2.2)

/-! ### TCP server (`src/tcp/server.rs`) -/

/-- `VstpTcpServer::handle_connection`: the session loop delivers decoded
frames to the handler until the stream ends or a decode error occurs; any
error terminates the session, so nothing after it is delivered. -/
def tcpSessionDeliveries : List (Except VstpError Frame) → List Frame
  | [] => []
  | .ok f :: rest => f :: tcpSessionDeliveries rest
  | .error _ :: _ => []

/-- `VstpTcpServer::run`: each accepted connection is handled by an
independent session task; one session's termination does not affect the
accept loop or other sessions. -/
def tcpAcceptLoop (conns : List (List (Except VstpError Frame))) : List (List Frame) :=
  conns.map tcpSessionDeliveries

/-! ### Concrete frames used as test vectors -/

/-- The empty HELLO frame of the spec's hello-handshake scenario. -/
def exHello : Frame := ⟨1, .Hello, 0, [], []⟩

/-- The spec's CRC-protected DATA example:
one header `("content-type", "text/plain")`, payload `"hi"`, `CRC` set. -/
def exData42 : Frame :=
  ⟨1, .Data, 2,
    [⟨[99, 111, 110, 116, 101, 110, 116, 45, 116, 121, 112, 101],
      [116, 101, 120, 116, 47, 112, 108, 97, 105, 110]⟩],
    [104, 105]⟩

/-- A small DATA frame with a 3-byte payload (fragments into one chunk). -/
def exData3 : Frame := ⟨1, .Data, 0, [], [1, 2, 3]⟩

/-- A DATA frame with `REQ_ACK` set, `msg-id` `"7"`, and a payload one byte
over the fragmentation chunk size, so it fragments into two fragments. -/
def exBig : Frame :=
  ⟨1, .Data, 1, [⟨[109, 115, 103, 45, 105, 100], [55]⟩], List.replicate 1151 9⟩

/-- A `REQ_ACK` frame with two `msg-id` headers: the first value is the
non-UTF-8 byte `0xFF`, the second is `"7"`. -/
def exDouble : Frame :=
  ⟨1, .Data, 1,
    [⟨[109, 115, 103, 45, 105, 100], [255]⟩,
     ⟨[109, 115, 103, 45, 105, 100], [55]⟩], []⟩

/-- A `REQ_ACK` frame with one `msg-id` header `"7"`. -/
def exSingleMsg : Frame :=
  ⟨1, .Data, 1, [⟨[109, 115, 103, 45, 105, 100], [55]⟩], [10]⟩

/-- A `REQ_ACK` frame whose only `msg-id` value is `"x"`: UTF-8 but not a
number. -/
def exNoParse : Frame :=
  ⟨1, .Data, 1, [⟨[109, 115, 103, 45, 105, 100], [120]⟩], [5]⟩

/-- A single-fragment frame: `frag-id "5"`, `frag-index "0"`,
`frag-total "1"`, one ordinary header, payload `[1, 2]`. -/
def exFragOne : Frame :=
  ⟨1, .Data, 4,
    [⟨[97], [98]⟩,
     ⟨[102, 114, 97, 103, 45, 105, 100], [53]⟩,
     ⟨[102, 114, 97, 103, 45, 105, 110, 100, 101, 120], [48]⟩,
     ⟨[102, 114, 97, 103, 45, 116, 111, 116, 97, 108], [49]⟩],
    [1, 2]⟩

/-- The default frame used with `List.getD`. -/
def dfltFrame : Frame := ⟨0, .Data, 0, [], []⟩

/-! ### Codec lemmas -/

theorem FrameType.ofByte_toByte (t : FrameType) : FrameType.ofByte t.toByte = some t := by
  cases t <;> rfl

theorem headersBytes_nil : headersBytes [] = [] := rfl

theorem headersBytes_cons (h : Header) (hs : List Header) :
    headersBytes (h :: hs) = encodeHeader h ++ headersBytes hs := by
  simp [headersBytes]

theorem le_length_headersBytes (hs : List Header) :
    hs.length ≤ (headersBytes hs).length := by
  induction hs with
  | nil => simp [headersBytes]
  | cons h t ih =>
    rw [headersBytes_cons]
    simp only [encodeHeader, List.length_append, List.length_cons]
    omega

theorem parseHeadersAux_headersBytes (hs : List Header) :
    ∀ fuel, hs.length ≤ fuel → parseHeadersAux fuel (headersBytes hs) = some hs := by
  induction hs with
  | nil => intro fuel _; cases fuel <;> simp [headersBytes, parseHeadersAux]
  | cons h t ih =>
    intro fuel hf
    obtain ⟨fuel', rfl⟩ : ∃ g, fuel = g + 1 := ⟨fuel - 1, by simp at hf; omega⟩
    have hshape : headersBytes (h :: t) =
        h.key.length :: (h.key ++ h.value.length :: (h.value ++ headersBytes t)) := by
      rw [headersBytes_cons]
      simp [encodeHeader, List.append_assoc]
    rw [hshape]
    rw [parseHeadersAux]
    rw [if_pos (by simp only [List.length_append, List.length_cons]; omega)]
    rw [show (h.key ++ h.value.length :: (h.value ++ headersBytes t)).drop h.key.length =
        h.value.length :: (h.value ++ headersBytes t) from List.drop_left _ _]
    simp only []
    rw [if_pos (by simp only [List.length_append]; omega)]
    rw [show (h.value ++ headersBytes t).drop h.value.length = headersBytes t from
        List.drop_left _ _]
    rw [ih fuel' (by simp at hf; omega)]
    rw [show (h.key ++ h.value.length :: (h.value ++ headersBytes t)).take h.key.length =
        h.key from List.take_left _ _]
    rw [show (h.value ++ headersBytes t).take h.value.length = h.value from
        List.take_left _ _]
    rfl

theorem parseHeaders_headersBytes (hs : List Header) :
    parseHeaders (headersBytes hs) = some hs :=
  parseHeadersAux_headersBytes hs _ (le_length_headersBytes hs)

theorem length_crcTrailer (f : Frame) :
    (crcTrailer f).length = if hasFlag f.flags CRC then 4 else 0 := by
  unfold crcTrailer; split <;> rfl

theorem length_bodyBytes (f : Frame) :
    (bodyBytes f).length = 12 + (headersBytes f.headers).length + f.payload.length := by
  simp [bodyBytes]; omega

theorem length_encodeBytes (f : Frame) :
    (encodeBytes f).length = 12 + (headersBytes f.headers).length + f.payload.length +
      (if hasFlag f.flags CRC then 4 else 0) := by
  rw [encodeBytes, List.length_append, length_bodyBytes, length_crcTrailer]

/-- Shape of `encodeBytes f ++ rest` as an explicit cons chain with a
right-associated tail. -/
theorem encodeBytes_append_shape (f : Frame) (rest : List Nat) :
    encodeBytes f ++ rest =
      86 :: 84 :: f.version :: f.typ.toByte :: f.flags ::
      ((headersBytes f.headers).length % 256) ::
      ((headersBytes f.headers).length / 256 % 256) ::
      (f.payload.length / 16777216 % 256) :: (f.payload.length / 65536 % 256) ::
      (f.payload.length / 256 % 256) :: (f.payload.length % 256) :: 0 ::
      (headersBytes f.headers ++ (f.payload ++ (crcTrailer f ++ rest))) := by
  simp [encodeBytes, bodyBytes, List.append_assoc]

/-- The streaming decoder consumes exactly one encoded frame from the front of
the buffer and returns that frame. -/
theorem try_decode_encodeBytes (f : Frame) (rest : List Nat) (maxSize : Nat)
    (hv : f.Valid) (hm1 : (headersBytes f.headers).length ≤ maxSize)
    (hm2 : f.payload.length ≤ maxSize) :
    try_decode_frame (encodeBytes f ++ rest) maxSize = .ok (some (f, rest)) := by
  obtain ⟨hver, hfl, hhdrs, hpay, hhl, hpl⟩ := hv
  rw [encodeBytes_append_shape]
  rw [try_decode_frame]
  rw [if_pos (show (86 : Nat) = 86 ∧ (84 : Nat) = 84 from ⟨rfl, rfl⟩)]
  rw [hver, if_pos rfl]
  rw [FrameType.ofByte_toByte]
  simp only []
  have ehl : (headersBytes f.headers).length % 256 +
      256 * ((headersBytes f.headers).length / 256 % 256) =
      (headersBytes f.headers).length := by omega
  have epl : f.payload.length / 16777216 % 256 * 16777216 +
      f.payload.length / 65536 % 256 * 65536 +
      f.payload.length / 256 % 256 * 256 + f.payload.length % 256 =
      f.payload.length := by omega
  rw [ehl, epl]
  rw [if_pos ⟨hm1, hm2⟩]
  have hbodylen : (headersBytes f.headers ++ (f.payload ++ (crcTrailer f ++ rest))).length =
      (headersBytes f.headers).length + f.payload.length + (crcTrailer f).length +
        rest.length := by
    simp [List.length_append]; omega
  rw [if_pos (by rw [hbodylen, length_crcTrailer]; split <;> omega)]
  rw [show (headersBytes f.headers ++ (f.payload ++ (crcTrailer f ++ rest))).take
        (headersBytes f.headers).length = headersBytes f.headers from List.take_left _ _]
  rw [parseHeaders_headersBytes]
  simp only []
  rw [show (headersBytes f.headers ++ (f.payload ++ (crcTrailer f ++ rest))).drop
        (headersBytes f.headers).length = f.payload ++ (crcTrailer f ++ rest) from
        List.drop_left _ _]
  rw [show (f.payload ++ (crcTrailer f ++ rest)).take f.payload.length = f.payload from
        List.take_left _ _]
  by_cases hc : hasFlag f.flags CRC
  · rw [if_pos hc]
    have hdropcrc : (headersBytes f.headers ++ (f.payload ++ (crcTrailer f ++ rest))).drop
        ((headersBytes f.headers).length + f.payload.length) = crcTrailer f ++ rest := by
      rw [show (headersBytes f.headers ++ (f.payload ++ (crcTrailer f ++ rest))) =
          (headersBytes f.headers ++ f.payload) ++ (crcTrailer f ++ rest) by
        simp [List.append_assoc]]
      exact List.drop_left' (by simp)
    rw [hdropcrc]
    have hct : crcTrailer f = be32 (crc32 (headersBytes f.headers ++ f.payload)) := by
      rw [crcTrailer, if_pos hc]
    rw [show (crcTrailer f ++ rest).take 4 = crcTrailer f from
        List.take_left' (by rw [length_crcTrailer, if_pos hc])]
    rw [hct, if_pos rfl]
    have hdropall : (headersBytes f.headers ++ (f.payload ++
          (be32 (crc32 (headersBytes f.headers ++ f.payload)) ++ rest))).drop
        ((headersBytes f.headers).length + f.payload.length + 4) = rest := by
      rw [show (headersBytes f.headers ++ (f.payload ++
            (be32 (crc32 (headersBytes f.headers ++ f.payload)) ++ rest))) =
          (headersBytes f.headers ++ f.payload ++
            be32 (crc32 (headersBytes f.headers ++ f.payload))) ++ rest by
        simp [List.append_assoc]]
      exact List.drop_left' (by simp [be32]; omega)
    rw [hdropall, ← hver]
  · rw [if_neg hc]
    have hct : crcTrailer f = [] := by rw [crcTrailer, if_neg hc]
    have hdropall : (headersBytes f.headers ++ (f.payload ++ (crcTrailer f ++ rest))).drop
        ((headersBytes f.headers).length + f.payload.length) = rest := by
      rw [hct]
      rw [show (headersBytes f.headers ++ (f.payload ++ ([] ++ rest))) =
          (headersBytes f.headers ++ f.payload) ++ rest by simp [List.append_assoc]]
      exact List.drop_left' (by simp)
    rw [hdropall, ← hver]

theorem length_be32 (n : Nat) : (be32 n).length = 4 := rfl

/-- Shape of `encodeBytes f` itself as an explicit cons chain. -/
theorem encodeBytes_shape (f : Frame) :
    encodeBytes f =
      86 :: 84 :: f.version :: f.typ.toByte :: f.flags ::
      ((headersBytes f.headers).length % 256) ::
      ((headersBytes f.headers).length / 256 % 256) ::
      (f.payload.length / 16777216 % 256) :: (f.payload.length / 65536 % 256) ::
      (f.payload.length / 256 % 256) :: (f.payload.length % 256) :: 0 ::
      (headersBytes f.headers ++ (f.payload ++ crcTrailer f)) := by
  have h := encodeBytes_append_shape f []
  simpa using h

theorem take_prefix_twelve (m' c0 c1 c2 c3 c4 c5 c6 c7 c8 c9 c10 c11 : Nat)
    (tl : List Nat) :
    (c0 :: c1 :: c2 :: c3 :: c4 :: c5 :: c6 :: c7 :: c8 :: c9 :: c10 :: c11 :: tl).take
      (12 + m') =
    c0 :: c1 :: c2 :: c3 :: c4 :: c5 :: c6 :: c7 :: c8 :: c9 :: c10 :: c11 ::
      tl.take m' := by
  rw [show 12 + m' = m' + 12 from Nat.add_comm _ _]
  simp only [List.take_succ_cons]

/-- Presenting any proper front part of an encoded frame to the streaming
decoder yields `ok none` (need more): no bytes are consumed and no error is
raised. -/
theorem try_decode_take_encodeBytes (f : Frame) (maxSize m : Nat)
    (hv : f.Valid) (hm1 : (headersBytes f.headers).length ≤ maxSize)
    (hm2 : f.payload.length ≤ maxSize) (hlt : m < (encodeBytes f).length) :
    try_decode_frame ((encodeBytes f).take m) maxSize = .ok none := by
  obtain ⟨hver, hfl, hhdrs, hpay, hhl, hpl⟩ := hv
  by_cases hm : m < 12
  · rw [encodeBytes_shape]
    interval_cases m <;> rfl
  · obtain ⟨m', rfl⟩ : ∃ m', m = 12 + m' := ⟨m - 12, by omega⟩
    have hlen : (encodeBytes f).length = 12 + (headersBytes f.headers).length +
        f.payload.length + (if hasFlag f.flags CRC then 4 else 0) := length_encodeBytes f
    rw [encodeBytes_shape, take_prefix_twelve]
    rw [try_decode_frame]
    rw [if_pos (show (86 : Nat) = 86 ∧ (84 : Nat) = 84 from ⟨rfl, rfl⟩)]
    rw [hver, if_pos rfl]
    rw [FrameType.ofByte_toByte]
    simp only []
    have ehl : (headersBytes f.headers).length % 256 +
        256 * ((headersBytes f.headers).length / 256 % 256) =
        (headersBytes f.headers).length := by omega
    have epl : f.payload.length / 16777216 % 256 * 16777216 +
        f.payload.length / 65536 % 256 * 65536 +
        f.payload.length / 256 % 256 * 256 + f.payload.length % 256 =
        f.payload.length := by omega
    rw [ehl, epl]
    rw [if_pos ⟨hm1, hm2⟩]
    have htail : (headersBytes f.headers ++ (f.payload ++ crcTrailer f)).length =
        (headersBytes f.headers).length + f.payload.length + (crcTrailer f).length := by
      simp [List.length_append]; omega
    have hcond : ¬((headersBytes f.headers).length + f.payload.length +
        (if hasFlag f.flags CRC then 4 else 0) ≤
        ((headersBytes f.headers ++ (f.payload ++ crcTrailer f)).take m').length) := by
      rw [List.length_take, htail, length_crcTrailer]
      rw [length_encodeBytes] at hlt
      by_cases hcr : hasFlag f.flags CRC
      · rw [if_pos hcr] at hlt ⊢; omega
      · rw [if_neg hcr] at hlt ⊢; omega
    rw [if_neg hcond]


/-- A CRC-flagged frame body followed by a wrong 4-byte trailer is rejected
with `CrcMismatch`. -/
theorem try_decode_tampered_trailer (f : Frame) (maxSize : Nat) (t' : List Nat)
    (hv : f.Valid) (hm1 : (headersBytes f.headers).length ≤ maxSize)
    (hm2 : f.payload.length ≤ maxSize) (hc : hasFlag f.flags CRC = true)
    (ht4 : t'.length = 4)
    (hne : t' ≠ be32 (crc32 (headersBytes f.headers ++ f.payload))) :
    try_decode_frame (bodyBytes f ++ t') maxSize = .error .CrcMismatch := by
  obtain ⟨hver, hfl, hhdrs, hpay, hhl, hpl⟩ := hv
  rw [show bodyBytes f ++ t' =
      86 :: 84 :: f.version :: f.typ.toByte :: f.flags ::
      ((headersBytes f.headers).length % 256) ::
      ((headersBytes f.headers).length / 256 % 256) ::
      (f.payload.length / 16777216 % 256) :: (f.payload.length / 65536 % 256) ::
      (f.payload.length / 256 % 256) :: (f.payload.length % 256) :: 0 ::
      (headersBytes f.headers ++ (f.payload ++ t')) by
    simp [bodyBytes, List.append_assoc]]
  rw [try_decode_frame]
  rw [if_pos (show (86 : Nat) = 86 ∧ (84 : Nat) = 84 from ⟨rfl, rfl⟩)]
  rw [hver, if_pos rfl]
  rw [FrameType.ofByte_toByte]
  simp only []
  have ehl : (headersBytes f.headers).length % 256 +
      256 * ((headersBytes f.headers).length / 256 % 256) =
      (headersBytes f.headers).length := by omega
  have epl : f.payload.length / 16777216 % 256 * 16777216 +
      f.payload.length / 65536 % 256 * 65536 +
      f.payload.length / 256 % 256 * 256 + f.payload.length % 256 =
      f.payload.length := by omega
  rw [ehl, epl]
  rw [if_pos ⟨hm1, hm2⟩]
  rw [if_pos (by
    rw [hc, if_pos rfl]
    simp [List.length_append]
    omega)]
  rw [show (headersBytes f.headers ++ (f.payload ++ t')).take
        (headersBytes f.headers).length = headersBytes f.headers from List.take_left _ _]
  rw [parseHeaders_headersBytes]
  simp only []
  rw [show (headersBytes f.headers ++ (f.payload ++ t')).drop
        (headersBytes f.headers).length = f.payload ++ t' from List.drop_left _ _]
  rw [show (f.payload ++ t').take f.payload.length = f.payload from List.take_left _ _]
  rw [hc]
  simp only [if_true]
  rw [show (headersBytes f.headers ++ (f.payload ++ t')).drop
        ((headersBytes f.headers).length + f.payload.length) = t' by
    rw [show headersBytes f.headers ++ (f.payload ++ t') =
        (headersBytes f.headers ++ f.payload) ++ t' by simp [List.append_assoc]]
    exact List.drop_left' (by simp)]
  rw [show t'.take 4 = t' by rw [← ht4, List.take_length]]
  rw [if_neg hne]


/-! ### Decimal string lemmas -/

theorem decStrAux_ne_nil (fuel n : Nat) : decStrAux fuel n ≠ [] := by
  cases fuel with
  | zero => simp [decStrAux]
  | succ fuel =>
    rw [decStrAux]
    split
    · simp
    · simp

theorem decStr_ne_nil (n : Nat) : decStr n ≠ [] := decStrAux_ne_nil n n

theorem decStrAux_digits (fuel : Nat) :
    ∀ n, ∀ b ∈ decStrAux fuel n, 48 ≤ b ∧ b ≤ 57 := by
  induction fuel with
  | zero =>
    intro n b hb
    simp [decStrAux] at hb
    have : n % 10 < 10 := Nat.mod_lt _ (by omega)
    omega
  | succ fuel ih =>
    intro n b hb
    rw [decStrAux] at hb
    split at hb
    · rename_i h
      simp at hb
      omega
    · rename_i h
      simp at hb
      rcases hb with hb | hb
      · exact ih (n / 10) b hb
      · have : n % 10 < 10 := Nat.mod_lt _ (by omega)
        omega

theorem decStr_digits (n : Nat) : ∀ b ∈ decStr n, 48 ≤ b ∧ b ≤ 57 :=
  decStrAux_digits n n

theorem decStrAux_foldl (fuel : Nat) :
    ∀ n, n ≤ fuel → ∀ a : Nat,
      (decStrAux fuel n).foldl (fun acc b => acc * 10 + (b - 48)) a =
        a * 10 ^ (decStrAux fuel n).length + n := by
  induction fuel with
  | zero =>
    intro n hn a
    have : n = 0 := by omega
    subst this
    simp [decStrAux, List.foldl]
  | succ fuel ih =>
    intro n hn a
    rw [decStrAux]
    split
    · rename_i h
      simp [List.foldl]
    · rename_i h
      rw [List.foldl_append]
      have hdiv : n / 10 ≤ fuel := by
        have := Nat.div_lt_self (show 0 < n by omega) (show 1 < 10 by omega)
        omega
      rw [ih (n / 10) hdiv a]
      simp only [List.length_append, List.length_cons, List.length_nil, List.foldl]
      have hm : n % 10 < 10 := Nat.mod_lt _ (by omega)
      have hp : 10 ^ ((decStrAux fuel (n / 10)).length + (0 + 1)) =
          10 ^ (decStrAux fuel (n / 10)).length * 10 := by
        rw [Nat.zero_add, Nat.pow_succ]
      rw [hp]
      have := Nat.div_add_mod n 10
      ring_nf
      ring_nf at this
      omega

theorem decStr_foldl (n : Nat) :
    ∀ a : Nat, (decStr n).foldl (fun acc b => acc * 10 + (b - 48)) a =
      a * 10 ^ (decStr n).length + n :=
  decStrAux_foldl n n (Nat.le_refl _)

theorem parseU64_decStr (n : Nat) (hn : n < 18446744073709551616) :
    parseU64 (decStr n) = some n := by
  have hd := decStr_digits n
  have hnn := decStr_ne_nil n
  rw [parseU64]
  have hhead : (decStr n).headD 0 ≠ 43 := by
    obtain ⟨b, t, hbt⟩ := List.exists_cons_of_ne_nil hnn
    rw [hbt]
    have := hd b (by rw [hbt]; exact List.mem_cons_self _ _)
    simp
    omega
  rw [if_neg hhead]
  simp only []
  rw [if_neg hnn]
  rw [if_pos (by
    rw [List.all_eq_true]
    intro b hb
    have := hd b hb
    simp
    omega)]
  rw [show (decStr n).foldl (fun acc b => acc * 10 + (b - 48)) 0 = n by
    rw [decStr_foldl n 0]; simp]
  rw [if_pos hn]

theorem isValidUtf8_of_ascii (l : List Nat) (h : ∀ b ∈ l, b ≤ 127) :
    isValidUtf8 l = true := by
  induction l with
  | nil => rfl
  | cons b t ih =>
    rw [isValidUtf8, utf8Aux]
    rw [if_pos rfl]
    rw [if_pos (h b (List.mem_cons_self _ _))]
    exact ih (fun x hx => h x (List.mem_cons_of_mem _ hx))

theorem isValidUtf8_decStr (n : Nat) : isValidUtf8 (decStr n) = true :=
  isValidUtf8_of_ascii _ (fun b hb => by have := decStr_digits n b hb; omega)


/-! ### Fragmenter and flag lemmas -/

theorem chunkSplitAux_flatten (fuel : Nat) :
    ∀ l : List Nat, l.length ≤ fuel → (chunkSplitAux fuel l).flatten = l := by
  induction fuel with
  | zero =>
    intro l hl
    have hnil : l = [] := List.eq_nil_of_length_eq_zero (by omega)
    subst hnil
    rfl
  | succ fuel ih =>
    intro l hl
    cases l with
    | nil => rfl
    | cons a t =>
      rw [chunkSplitAux, List.flatten_cons]
      rw [ih ((a :: t).drop FRAG_CHUNK_SIZE) (by
        rw [List.length_drop]
        simp only [List.length_cons] at hl ⊢
        simp only [FRAG_CHUNK_SIZE]
        omega)]
      rw [List.take_append_drop]

theorem chunkSplit_flatten (l : List Nat) : (chunkSplit l).flatten = l :=
  chunkSplitAux_flatten l.length l (Nat.le_refl _)

theorem chunkSplitAux_length_le (fuel : Nat) :
    ∀ l : List Nat, (chunkSplitAux fuel l).length ≤ l.length := by
  induction fuel with
  | zero =>
    intro l
    cases l <;> simp [chunkSplitAux]
  | succ fuel ih =>
    intro l
    cases l with
    | nil => simp [chunkSplitAux]
    | cons a t =>
      rw [chunkSplitAux, List.length_cons]
      have := ih ((a :: t).drop FRAG_CHUNK_SIZE)
      rw [List.length_drop] at this
      simp only [List.length_cons, FRAG_CHUNK_SIZE] at this ⊢
      omega

theorem chunkSplit_length_le (l : List Nat) : (chunkSplit l).length ≤ l.length :=
  chunkSplitAux_length_le l.length l

theorem chunkSplit_ne_nil (l : List Nat) (h : l ≠ []) : chunkSplit l ≠ [] := by
  obtain ⟨a, t, rfl⟩ := List.exists_cons_of_ne_nil h
  rw [chunkSplit, List.length_cons, chunkSplitAux]
  simp

theorem map_getD_range (l : List (List Nat)) :
    (List.range l.length).map (fun j => l.getD j []) = l := by
  induction l with
  | nil => rfl
  | cons x t ih =>
    rw [List.length_cons, List.range_succ_eq_map, List.map_cons, List.map_map]
    have hc : ((fun j => (x :: t).getD j []) ∘ (· + 1)) = fun j => t.getD j [] := by
      funext j
      simp [List.getD_cons_succ]
    rw [hc, ih]
    simp [List.getD_cons_zero]

theorem hasFlag_clearFlag_reqAck (x : Nat) :
    hasFlag (clearFlag (setFlag x FRAG) REQ_ACK) REQ_ACK = false := by
  simp only [hasFlag, setFlag, clearFlag, FRAG, REQ_ACK, Nat.div_one,
    decide_eq_true_eq, decide_eq_false_iff_not]
  split_ifs <;> omega

theorem hasFlag_setFlag_frag_reqAck (x : Nat) :
    hasFlag (setFlag x FRAG) REQ_ACK = hasFlag x REQ_ACK := by
  simp only [hasFlag, setFlag, FRAG, REQ_ACK, Nat.div_one, decide_eq_true_eq]
  split_ifs with h
  · rfl
  · rw [decide_eq_decide]
    omega

/-! ### Header lookup lemmas -/

theorem findHeaderValue_cons_of_ne (a : Header) (hs : List Header) (k : List Nat)
    (h : ¬a.key = k) : findHeaderValue (a :: hs) k = findHeaderValue hs k := by
  unfold findHeaderValue
  rw [List.find?_cons_of_neg _ (by simpa using h)]

theorem findHeaderValue_append_left_none (hs tl : List Header) (k : List Nat)
    (h : ∀ x ∈ hs, ¬x.key = k) :
    findHeaderValue (hs ++ tl) k = findHeaderValue tl k := by
  induction hs with
  | nil => rfl
  | cons a t ih =>
    rw [List.cons_append, findHeaderValue_cons_of_ne a _ _ (h a (List.mem_cons_self _ _))]
    exact ih (fun x hx => h x (List.mem_cons_of_mem _ hx))

theorem nonFragHeader_spec (h : Header) (hh : nonFragHeader h = true) :
    ¬h.key = fragIdKey ∧ ¬h.key = fragIndexKey ∧ ¬h.key = fragTotalKey := by
  simp [nonFragHeader] at hh
  tauto

theorem extract_fragment_info_mkFragmentFrame (f : Frame) (k total i : Nat)
    (chunk : List Nat) (hh : ∀ h ∈ f.headers, nonFragHeader h = true)
    (hk : k < 18446744073709551616) (hi : i < 18446744073709551616)
    (ht : total < 18446744073709551616) :
    extract_fragment_info (mkFragmentFrame f k total i chunk) =
      some ⟨k, i, total, chunk⟩ := by
  have hid : findHeaderValue (mkFragmentFrame f k total i chunk).headers fragIdKey =
      some (decStr k) := by
    show findHeaderValue (f.headers ++ fragHeaders k total i) fragIdKey = _
    rw [findHeaderValue_append_left_none _ _ _
      (fun x hx => (nonFragHeader_spec x (hh x hx)).1)]
    rfl
  have hix : findHeaderValue (mkFragmentFrame f k total i chunk).headers fragIndexKey =
      some (decStr i) := by
    show findHeaderValue (f.headers ++ fragHeaders k total i) fragIndexKey = _
    rw [findHeaderValue_append_left_none _ _ _
      (fun x hx => (nonFragHeader_spec x (hh x hx)).2.1)]
    rfl
  have htot : findHeaderValue (mkFragmentFrame f k total i chunk).headers fragTotalKey =
      some (decStr total) := by
    show findHeaderValue (f.headers ++ fragHeaders k total i) fragTotalKey = _
    rw [findHeaderValue_append_left_none _ _ _
      (fun x hx => (nonFragHeader_spec x (hh x hx)).2.2)]
    rfl
  unfold extract_fragment_info
  rw [hid, hix, htot]
  simp only []
  rw [parseU64_decStr k hk, parseU64_decStr i hi, parseU64_decStr total ht]
  rfl

theorem filter_nonFrag_fragment (f : Frame) (k total i : Nat)
    (hh : ∀ h ∈ f.headers, nonFragHeader h = true) :
    (f.headers ++ fragHeaders k total i).filter nonFragHeader = f.headers := by
  rw [List.filter_append, List.filter_eq_self.mpr hh]
  have : (fragHeaders k total i).filter nonFragHeader = [] := by
    simp [fragHeaders, nonFragHeader, List.filter]
  rw [this, List.append_nil]

/-! ### `extract_msg_id` lemmas -/

theorem extract_msg_id_eq_firstMsgId (hs : List Header)
    (hutf : ∀ h ∈ hs, h.key = msgIdKey → isValidUtf8 h.value = true) :
    extract_msg_id hs = firstMsgId hs := by
  induction hs with
  | nil => rfl
  | cons a t ih =>
    rw [extract_msg_id, firstMsgId]
    by_cases hk : a.key = msgIdKey
    · rw [if_pos hk, if_pos hk]
      rw [hutf a (List.mem_cons_self _ _) hk]
      simp only [if_true]
      cases hp : parseU64 a.value with
      | some n => rfl
      | none => exact ih (fun x hx hxk => hutf x (List.mem_cons_of_mem _ hx) hxk)
    · rw [if_neg hk, if_neg hk]
      exact ih (fun x hx hxk => hutf x (List.mem_cons_of_mem _ hx) hxk)

theorem extract_msg_id_none_of_unparseable (hs : List Header)
    (h : ∀ x ∈ hs, x.key = msgIdKey → parseU64 x.value = none) :
    extract_msg_id hs = none := by
  induction hs with
  | nil => rfl
  | cons a t ih =>
    rw [extract_msg_id]
    by_cases hk : a.key = msgIdKey
    · rw [if_pos hk]
      by_cases hu : isValidUtf8 a.value
      · rw [if_pos hu, h a (List.mem_cons_self _ _) hk]
        exact ih (fun x hx hxk => h x (List.mem_cons_of_mem _ hx) hxk)
      · rw [if_neg hu]
    · rw [if_neg hk]
      exact ih (fun x hx hxk => h x (List.mem_cons_of_mem _ hx) hxk)


/-! ### Reassembly state lemmas -/

theorem sweepExpired_groupStateOf (peer k total now : Nat) (c : Nat → List Nat)
    (seen : List Nat) :
    sweepExpired (groupStateOf peer k total now c seen) now =
      groupStateOf peer k total now c seen := by
  unfold groupStateOf sweepExpired
  split
  · rfl
  · simp [GROUP_TTL]

theorem lookupGroup_groupStateOf (peer k total now : Nat) (c : Nat → List Nat)
    (seen : List Nat) :
    (lookupGroup (groupStateOf peer k total now c seen) (peer, k)).getD
        ⟨total, fun _ => none, now⟩ =
      ⟨total, fun j => if j ∈ seen then some (c j) else none, now⟩ := by
  unfold groupStateOf lookupGroup
  split
  · rename_i hs
    subst hs
    simp
  · simp [List.find?]

theorem removeGroup_groupStateOf (peer k total now : Nat) (c : Nat → List Nat)
    (seen : List Nat) :
    removeGroup (groupStateOf peer k total now c seen) (peer, k) = [] := by
  unfold groupStateOf removeGroup
  split
  · rfl
  · simp [List.filter]

theorem setGroup_groupStateOf (peer k total now : Nat) (c : Nat → List Nat)
    (seen : List Nat) (g : ReasmGroup) :
    setGroup (groupStateOf peer k total now c seen) (peer, k) g = [((peer, k), g)] := by
  unfold setGroup
  rw [removeGroup_groupStateOf]
  rfl

/-- Inserting a fragment at a fresh index `j` into the single-group state:
when every index below `N` is then present the group completes, is removed,
and the chunks are joined in ascending index order. -/
theorem addFragment_groupStateOf_complete (peer k N now : Nat) (c : Nat → List Nat)
    (seen : List Nat) (j : Nat) (hjN : j < N) (hjs : j ∉ seen)
    (hcomp : ∀ i, i < N → i = j ∨ i ∈ seen) :
    addFragment (groupStateOf peer k N now c seen) peer now ⟨k, j, N, c j⟩ =
      ([], some ((List.range N).map c).flatten) := by
  unfold addFragment
  rw [if_neg (by simp only [not_le]; exact hjN)]
  simp only []
  rw [sweepExpired_groupStateOf, lookupGroup_groupStateOf]
  simp only []
  rw [if_neg (by simp [hjs])]
  rw [if_neg (by simp)]
  rw [if_pos (by
    rw [List.all_eq_true]
    intro i hi
    have hiN := List.mem_range.mp hi
    rcases hcomp i hiN with h | h
    · rw [if_pos h]
      rfl
    · rw [if_neg (by intro he; subst he; exact hjs h), if_pos h]
      rfl)]
  rw [removeGroup_groupStateOf]
  have hmap : (List.range N).map
      (fun i => (if i = j then some (c j) else
        if i ∈ seen then some (c i) else none).getD []) = (List.range N).map c := by
    apply List.map_congr_left
    intro i hi
    have hiN := List.mem_range.mp hi
    rcases hcomp i hiN with h | h
    · rw [if_pos h, h]
      rfl
    · rw [if_neg (by intro he; subst he; exact hjs h), if_pos h]
      rfl
  rw [hmap]

/-- Inserting a fragment at a fresh index `j` into the single-group state:
when some index below `N` is still missing, the chunk is recorded and nothing
is surfaced. -/
theorem addFragment_groupStateOf_incomplete (peer k N now : Nat) (c : Nat → List Nat)
    (seen : List Nat) (j : Nat) (hjN : j < N) (hjs : j ∉ seen)
    (i0 : Nat) (hi0N : i0 < N) (hi0 : ¬i0 = j ∧ i0 ∉ seen) :
    addFragment (groupStateOf peer k N now c seen) peer now ⟨k, j, N, c j⟩ =
      (groupStateOf peer k N now c (j :: seen), none) := by
  unfold addFragment
  rw [if_neg (by simp only [not_le]; exact hjN)]
  simp only []
  rw [sweepExpired_groupStateOf, lookupGroup_groupStateOf]
  simp only []
  rw [if_neg (by simp [hjs])]
  rw [if_neg (by simp)]
  rw [if_neg (by
    rw [List.all_eq_true]
    intro hall
    have := hall i0 (List.mem_range.mpr hi0N)
    rw [if_neg hi0.1, if_neg (by simp [hi0.2])] at this
    simp at this)]
  rw [setGroup_groupStateOf]
  have hst : groupStateOf peer k N now c (j :: seen) =
      [((peer, k), ⟨N, fun i => if i ∈ j :: seen then some (c i) else none, now⟩)] := by
    unfold groupStateOf
    rw [if_neg (by simp)]
  rw [hst]
  have hfun : (fun i => if i = j then some (c j) else
      if i ∈ seen then some (c i) else none) =
      (fun i => if i ∈ j :: seen then some (c i) else none) := by
    funext i
    by_cases hij : i = j
    · rw [if_pos hij, if_pos (by simp [hij]), hij]
    · rw [if_neg hij]
      by_cases his : i ∈ seen
      · rw [if_pos his, if_pos (by simp [his])]
      · rw [if_neg his, if_neg (by simp [hij, his])]
  rw [hfun]


theorem groupStateOf_nil (peer k total now : Nat) (c : Nat → List Nat) :
    groupStateOf peer k total now c [] = [] := by
  unfold groupStateOf
  simp

/-- Running the receiver over the fragments of one group delivered in any
order, starting from the single-group state: the group completes exactly at
the last arrival; the delivered frame is the completing fragment carrying the
assembled payload, and the ACK (if any) is decided by that frame. -/
theorem runFrames_fragment_group (f : Frame) (peer k N now : Nat) (c : Nat → List Nat)
    (hh : ∀ h ∈ f.headers, nonFragHeader h = true)
    (hk : k < 18446744073709551616) (hN : N < 18446744073709551616) :
    ∀ (idxs : List Nat) (last : Nat) (seen : List Nat),
      (seen ++ (idxs ++ [last])).Perm (List.range N) →
      runFrames (groupStateOf peer k N now c seen) peer now
        ((idxs ++ [last]).map (fun j => mkFragmentFrame f k N j (c j))) =
      ([],
       [completeFrame (mkFragmentFrame f k N last (c last))
          ((List.range N).map c).flatten],
       (processAckOf (completeFrame (mkFragmentFrame f k N last (c last))
          ((List.range N).map c).flatten)).toList) := by
  intro idxs
  induction idxs with
  | nil =>
    intro last seen hperm
    have hmem : ∀ i, i ∈ List.range N ↔ i ∈ seen ++ ([] ++ [last]) :=
      fun i => (hperm.mem_iff).symm
    have hlastN : last < N := by
      have := (hmem last).mpr (by simp)
      exact List.mem_range.mp this
    have hnd : (seen ++ ([] ++ [last])).Nodup :=
      (hperm.nodup_iff).mpr (List.nodup_range N)
    have hlastseen : last ∉ seen := by
      intro hls
      rw [List.nodup_append] at hnd
      exact hnd.2.2 hls (by simp)
    have hcomp : ∀ i, i < N → i = last ∨ i ∈ seen := by
      intro i hiN
      have := (hmem i).mp (List.mem_range.mpr hiN)
      simp at this
      tauto
    have hstep : handleDecoded (groupStateOf peer k N now c seen) peer now
        (mkFragmentFrame f k N last (c last)) =
        ([], some (completeFrame (mkFragmentFrame f k N last (c last))
            ((List.range N).map c).flatten),
         processAckOf (completeFrame (mkFragmentFrame f k N last (c last))
            ((List.range N).map c).flatten)) := by
      unfold handleDecoded
      rw [extract_fragment_info_mkFragmentFrame f k N last (c last) hh hk
        (by omega) hN]
      simp only []
      rw [addFragment_groupStateOf_complete peer k N now c seen last hlastN
        hlastseen hcomp]
    simp only [List.nil_append, List.map_cons, List.map_nil]
    rw [runFrames, hstep]
    simp only []
    rw [runFrames]
    simp
  | cons j rest ih =>
    intro last seen hperm
    have hmem : ∀ i, i ∈ List.range N ↔ i ∈ seen ++ ((j :: rest) ++ [last]) :=
      fun i => (hperm.mem_iff).symm
    have hjN : j < N := by
      have := (hmem j).mpr (by simp)
      exact List.mem_range.mp this
    have hlastN : last < N := by
      have := (hmem last).mpr (by simp)
      exact List.mem_range.mp this
    have hnd : (seen ++ ((j :: rest) ++ [last])).Nodup :=
      (hperm.nodup_iff).mpr (List.nodup_range N)
    have hjseen : j ∉ seen := by
      intro hjs
      rw [List.nodup_append] at hnd
      exact hnd.2.2 hjs (by simp)
    have hlastseen : last ∉ seen := by
      intro hls
      rw [List.nodup_append] at hnd
      exact hnd.2.2 hls (by simp)
    have hlastj : ¬last = j := by
      intro hlj
      rw [List.nodup_append] at hnd
      have hj2 : (j :: (rest ++ [last])).Nodup := hnd.2.1
      rw [List.nodup_cons] at hj2
      exact hj2.1 (by rw [← hlj]; simp)
    have hstep : handleDecoded (groupStateOf peer k N now c seen) peer now
        (mkFragmentFrame f k N j (c j)) =
        (groupStateOf peer k N now c (j :: seen), none, none) := by
      unfold handleDecoded
      rw [extract_fragment_info_mkFragmentFrame f k N j (c j) hh hk
        (by omega) hN]
      simp only []
      rw [addFragment_groupStateOf_incomplete peer k N now c seen j hjN hjseen
        last hlastN ⟨hlastj, hlastseen⟩]
    have hperm2 : ((j :: seen) ++ (rest ++ [last])).Perm (List.range N) :=
      List.Perm.trans List.perm_middle.symm hperm
    simp only [List.cons_append, List.map_cons]
    rw [runFrames, hstep]
    simp only []
    rw [ih last (j :: seen) hperm2]
    simp


theorem getD_map_range (N j : Nat) (g : Nat → Frame) (d : Frame) (h : j < N) :
    ((List.range N).map g).getD j d = g j := by
  rw [List.getD_eq_getElem _ _ (by simp [h])]
  simp


/-! ### Claim theorems -/

/-- C1: for every valid Frame `f`, decoding the encoding of `f` yields `f`
again (consuming the whole buffer); a decoded Frame re-encodes to the exact
original bytes iff the encoder uses the same flag byte; and the 4-byte CRC
trailer is present in the encoding iff the `CRC` flag is set in `f.flags`. -/
theorem claim_C1_roundtrip (f : Frame) (maxSize : Nat) (hv : f.Valid)
    (hm1 : (headersBytes f.headers).length ≤ maxSize)
    (hm2 : f.payload.length ≤ maxSize) :
    encode_frame f = .ok (encodeBytes f) ∧
    try_decode_frame (encodeBytes f) maxSize = .ok (some (f, [])) ∧
    (∀ fl' : Nat, fl' < 256 →
      (encodeBytes { f with flags := fl' } = encodeBytes f ↔ fl' = f.flags)) ∧
    (hasFlag f.flags CRC = true →
      encodeBytes f = bodyBytes f ++
        be32 (crc32 (headersBytes f.headers ++ f.payload))) ∧
    (hasFlag f.flags CRC = false → encodeBytes f = bodyBytes f) := by
  obtain ⟨hver, hfl, hhdrs, hpay, hhl, hpl⟩ := hv
  refine ⟨?_, ?_, ?_, ?_, ?_⟩
  · unfold encode_frame
    rw [if_pos ⟨hhl, hpl⟩]
  · have h := try_decode_encodeBytes f [] maxSize
      ⟨hver, hfl, hhdrs, hpay, hhl, hpl⟩ hm1 hm2
    simpa using h
  · intro fl' hfl'
    constructor
    · intro he
      have e1 : (encodeBytes { f with flags := fl' }).getD 4 0 = fl' := by
        rw [encodeBytes_shape]
        rfl
      have e2 : (encodeBytes f).getD 4 0 = f.flags := by
        rw [encodeBytes_shape]
        rfl
      have h4 := congrArg (fun l => l.getD 4 0) he
      simp only [] at h4
      rw [e1, e2] at h4
      exact h4
    · intro he
      rw [he]
  · intro hc
    rw [encodeBytes, crcTrailer, if_pos hc]
  · intro hc
    rw [encodeBytes, crcTrailer, if_neg (by rw [hc]; simp)]
    simp

/-- C1 witness: the empty HELLO frame at `maxSize = 65536`. -/
theorem claim_C1_roundtrip_witness :
    encode_frame exHello = .ok (encodeBytes exHello) ∧
    try_decode_frame (encodeBytes exHello) 65536 = .ok (some (exHello, [])) ∧
    (∀ fl' : Nat, fl' < 256 →
      (encodeBytes { exHello with flags := fl' } = encodeBytes exHello ↔
        fl' = exHello.flags)) ∧
    (hasFlag exHello.flags CRC = true →
      encodeBytes exHello = bodyBytes exHello ++
        be32 (crc32 (headersBytes exHello.headers ++ exHello.payload))) ∧
    (hasFlag exHello.flags CRC = false → encodeBytes exHello = bodyBytes exHello) :=
  claim_C1_roundtrip exHello 65536 (by decide) (by decide) (by decide)

/-- C4: for every valid Frame `f` and every buffer whose front holds
`encode f`, the streaming decoder returns `f` and consumes exactly the bytes
of `encode f` (leaving `rest`); and every proper front part of `encode f`
presented alone yields `ok none` (need more) with nothing consumed. -/
theorem claim_C4_streaming (f : Frame) (rest : List Nat) (maxSize m : Nat)
    (hv : f.Valid) (hm1 : (headersBytes f.headers).length ≤ maxSize)
    (hm2 : f.payload.length ≤ maxSize) (hm : m < (encodeBytes f).length) :
    try_decode_frame (encodeBytes f ++ rest) maxSize = .ok (some (f, rest)) ∧
    try_decode_frame ((encodeBytes f).take m) maxSize = .ok none :=
  ⟨try_decode_encodeBytes f rest maxSize hv hm1 hm2,
   try_decode_take_encodeBytes f maxSize m hv hm1 hm2 hm⟩

/-- C4 witness: the 42-byte CRC DATA example with two trailing bytes, and its
13-byte front part. -/
theorem claim_C4_streaming_witness :
    try_decode_frame (encodeBytes exData42 ++ [9, 9]) 65536 =
      .ok (some (exData42, [9, 9])) ∧
    try_decode_frame ((encodeBytes exData42).take 13) 65536 = .ok none :=
  claim_C4_streaming exData42 [9, 9] 65536 13 (by decide) (by decide) (by decide)
    (by decide)

/-- C5: for every valid frame with the `CRC` flag set, the encoder appends the
4-byte big-endian CRC32 of `HEADERS ++ PAYLOAD`; decode accepts the frame when
the transmitted trailer equals the recomputed CRC32, and any other 4-byte
trailer yields the `CrcMismatch` error with no frame returned. -/
theorem claim_C5_crc (f : Frame) (maxSize : Nat) (hv : f.Valid)
    (hm1 : (headersBytes f.headers).length ≤ maxSize)
    (hm2 : f.payload.length ≤ maxSize) (hc : hasFlag f.flags CRC = true) :
    encodeBytes f = bodyBytes f ++
      be32 (crc32 (headersBytes f.headers ++ f.payload)) ∧
    try_decode_frame (encodeBytes f) maxSize = .ok (some (f, [])) ∧
    (∀ t' : List Nat, t'.length = 4 →
      t' ≠ be32 (crc32 (headersBytes f.headers ++ f.payload)) →
      try_decode_frame (bodyBytes f ++ t') maxSize = .error .CrcMismatch) := by
  refine ⟨?_, ?_, ?_⟩
  · rw [encodeBytes, crcTrailer, if_pos hc]
  · have h := try_decode_encodeBytes f [] maxSize hv hm1 hm2
    simpa using h
  · intro t' ht4 hne
    exact try_decode_tampered_trailer f maxSize t' hv hm1 hm2 hc ht4 hne

set_option maxRecDepth 8000 in
/-- C5 witness: the 42-byte CRC DATA example, with the zero trailer as the
mismatching trailer. -/
theorem claim_C5_crc_witness :
    encodeBytes exData42 = bodyBytes exData42 ++
      be32 (crc32 (headersBytes exData42.headers ++ exData42.payload)) ∧
    try_decode_frame (encodeBytes exData42) 65536 = .ok (some (exData42, [])) ∧
    try_decode_frame (bodyBytes exData42 ++ [0, 0, 0, 0]) 65536 =
      .error .CrcMismatch := by
  have h := claim_C5_crc exData42 65536 (by decide) (by decide) (by decide) (by decide)
  exact ⟨h.1, h.2.1, h.2.2 [0, 0, 0, 0] (by decide) (by decide)⟩

set_option maxRecDepth 8000 in
/-- C7: the length of the encoding of any frame is exactly
`12 + hdr_len + pay_len + (4 if CRC else 0)`; in particular the spec's DATA
example with CRC, one `("content-type", "text/plain")` header and payload
`"hi"` encodes to exactly 42 bytes. -/
theorem claim_C7_length :
    (∀ f : Frame, (encodeBytes f).length =
      12 + (headersBytes f.headers).length + f.payload.length +
        (if hasFlag f.flags CRC then 4 else 0)) ∧
    (encodeBytes exData42).length = 42 :=
  ⟨length_encodeBytes, by decide⟩


/-- C2: for every nonempty payload of at most 1,000,000 bytes, concatenating
the payloads of the fragments in ascending frag-index order reproduces the
payload exactly; the reassembler reproduces the payload from the fragments
under any arrival permutation; and every header other than the three fragment
headers appears identically (as the original header list) on every fragment. -/
theorem claim_C2_fragmentation (f : Frame) (k peer now : Nat)
    (h1 : 1 ≤ f.payload.length) (h2 : f.payload.length ≤ 1000000)
    (hk : k < 18446744073709551616)
    (hh : ∀ h ∈ f.headers, nonFragHeader h = true) :
    ((fragmentFrame f k).map Frame.payload).flatten = f.payload ∧
    (∀ idxs : List Nat, idxs.Perm (List.range (fragmentFrame f k).length) →
      ((runFrames [] peer now
          (idxs.map (fun j => (fragmentFrame f k).getD j dfltFrame))).2.1).map
        Frame.payload = [f.payload]) ∧
    (∀ g ∈ fragmentFrame f k, g.headers.filter nonFragHeader = f.headers) := by
  have hNe : f.payload ≠ [] := by
    intro hnil
    rw [hnil] at h1
    simp at h1
  have hN64 : (chunkSplit f.payload).length < 18446744073709551616 := by
    have := chunkSplit_length_le f.payload
    omega
  refine ⟨?_, ?_, ?_⟩
  · unfold fragmentFrame
    rw [List.map_map]
    rw [show ((fun g => g.payload) ∘ fun i =>
        mkFragmentFrame f k (chunkSplit f.payload).length i
          ((chunkSplit f.payload).getD i [])) =
        (fun i => (chunkSplit f.payload).getD i []) from rfl]
    rw [map_getD_range, chunkSplit_flatten]
  · intro idxs hperm
    have hlen : (fragmentFrame f k).length = (chunkSplit f.payload).length := by
      unfold fragmentFrame
      simp
    rw [hlen] at hperm
    rcases idxs.eq_nil_or_concat' with h0 | ⟨idxs', last, rfl⟩
    · exfalso
      have hle := hperm.length_eq
      rw [h0] at hle
      simp at hle
      have := chunkSplit_ne_nil f.payload hNe
      exact this (List.eq_nil_of_length_eq_zero hle.symm)
    · have hmap : (idxs' ++ [last]).map
          (fun j => (fragmentFrame f k).getD j dfltFrame) =
          (idxs' ++ [last]).map (fun j =>
            mkFragmentFrame f k (chunkSplit f.payload).length j
              ((chunkSplit f.payload).getD j [])) := by
        apply List.map_congr_left
        intro j hj
        have hjN : j < (chunkSplit f.payload).length :=
          List.mem_range.mp (hperm.mem_iff.mp hj)
        unfold fragmentFrame
        exact getD_map_range _ _ _ _ hjN
      rw [hmap]
      rw [← groupStateOf_nil peer k (chunkSplit f.payload).length now
        (fun j => (chunkSplit f.payload).getD j [])]
      rw [runFrames_fragment_group f peer k (chunkSplit f.payload).length now
        (fun j => (chunkSplit f.payload).getD j []) hh hk hN64 idxs' last []
        (by simpa using hperm)]
      simp only [List.map_cons, List.map_nil]
      rw [show (completeFrame (mkFragmentFrame f k (chunkSplit f.payload).length last
          ((chunkSplit f.payload).getD last []))
          ((List.range (chunkSplit f.payload).length).map
            (fun j => (chunkSplit f.payload).getD j [])).flatten).payload =
          ((List.range (chunkSplit f.payload).length).map
            (fun j => (chunkSplit f.payload).getD j [])).flatten from rfl]
      rw [map_getD_range, chunkSplit_flatten]
  · intro g hg
    unfold fragmentFrame at hg
    obtain ⟨i, hi, hgi⟩ := List.mem_map.mp hg
    rw [← hgi]
    exact filter_nonFrag_fragment f k (chunkSplit f.payload).length i hh

/-- C2 witness: the 3-byte DATA frame, fragment group id 7, the identity
arrival order of its single fragment. -/
theorem claim_C2_fragmentation_witness :
    ((fragmentFrame exData3 7).map Frame.payload).flatten = [1, 2, 3] ∧
    ((runFrames [] 0 0 (([0] : List Nat).map
        (fun j => (fragmentFrame exData3 7).getD j dfltFrame))).2.1).map
      Frame.payload = [[1, 2, 3]] := by
  have h := claim_C2_fragmentation exData3 7 0 0 (by decide) (by decide)
    (by decide) (by decide)
  exact ⟨h.1, h.2.1 [0] (by decide)⟩


set_option maxRecDepth 100000 in
/-- C3 counterexample: for `exBig` (REQ_ACK set, parseable `msg-id "7"`,
two fragments), delivering the fragments in reverse order reassembles the
payload but the delivered frame does not carry `REQ_ACK` and no ACK is
emitted, because `handle_frame` takes the flags from the fragment that
completes the group (the last to arrive), which has `REQ_ACK` cleared. -/
theorem claim_C3_counterexample :
    hasFlag exBig.flags REQ_ACK = true ∧
    extract_msg_id exBig.headers = some 7 ∧
    ((fragmentFrame exBig 5).reverse).Perm (fragmentFrame exBig 5) ∧
    (runFrames [] 0 0 ((fragmentFrame exBig 5).reverse)).2.2 = [] ∧
    (runFrames [] 0 0 ((fragmentFrame exBig 5).reverse)).2.1.map
      (fun g => hasFlag g.flags REQ_ACK) = [false] :=
  ⟨by decide, by decide, List.reverse_perm _, by decide, by decide⟩

/-- C3 (amended): for every fragmented send with `REQ_ACK` requested and a
parseable `msg-id`, the sender sets `REQ_ACK` only on the final fragment
(index N-1); when the fragments arrive in index order — so the final fragment
is the one that completes the group — the receiver delivers one logical frame
with `REQ_ACK` set and emits exactly one ACK for it. -/
theorem claim_C3_amended (f : Frame) (k peer now m : Nat)
    (h1 : 1 ≤ f.payload.length) (h2 : f.payload.length ≤ 1000000)
    (hk : k < 18446744073709551616)
    (hh : ∀ h ∈ f.headers, nonFragHeader h = true)
    (hreq : hasFlag f.flags REQ_ACK = true)
    (hmsg : extract_msg_id f.headers = some m) :
    (∀ i : Nat, i + 1 < (fragmentFrame f k).length →
      hasFlag ((fragmentFrame f k).getD i dfltFrame).flags REQ_ACK = false) ∧
    hasFlag ((fragmentFrame f k).getD ((fragmentFrame f k).length - 1)
      dfltFrame).flags REQ_ACK = true ∧
    ((runFrames [] peer now (fragmentFrame f k)).2.1.map
      (fun g => hasFlag g.flags REQ_ACK)) = [true] ∧
    (runFrames [] peer now (fragmentFrame f k)).2.2 = [ackFrame m] := by
  have hNe : f.payload ≠ [] := by
    intro hnil
    rw [hnil] at h1
    simp at h1
  have hN64 : (chunkSplit f.payload).length < 18446744073709551616 := by
    have := chunkSplit_length_le f.payload
    omega
  have hNpos : 1 ≤ (chunkSplit f.payload).length := by
    rcases hn : chunkSplit f.payload with _ | ⟨a, t⟩
    · exact absurd hn (chunkSplit_ne_nil f.payload hNe)
    · simp
  have hlen : (fragmentFrame f k).length = (chunkSplit f.payload).length := by
    unfold fragmentFrame
    simp
  have hrun : runFrames [] peer now (fragmentFrame f k) =
      ([],
       [completeFrame (mkFragmentFrame f k (chunkSplit f.payload).length
          ((chunkSplit f.payload).length - 1)
          ((chunkSplit f.payload).getD ((chunkSplit f.payload).length - 1) []))
          ((List.range (chunkSplit f.payload).length).map
            (fun j => (chunkSplit f.payload).getD j [])).flatten],
       (processAckOf (completeFrame (mkFragmentFrame f k
          (chunkSplit f.payload).length ((chunkSplit f.payload).length - 1)
          ((chunkSplit f.payload).getD ((chunkSplit f.payload).length - 1) []))
          ((List.range (chunkSplit f.payload).length).map
            (fun j => (chunkSplit f.payload).getD j [])).flatten)).toList) := by
    have hdecomp : List.range (chunkSplit f.payload).length =
        List.range ((chunkSplit f.payload).length - 1) ++
          [(chunkSplit f.payload).length - 1] := by
      rw [show (chunkSplit f.payload).length =
        ((chunkSplit f.payload).length - 1) + 1 by omega, List.range_succ]
      simp
    rw [show fragmentFrame f k =
        (List.range ((chunkSplit f.payload).length - 1) ++
          [(chunkSplit f.payload).length - 1]).map
          (fun i => mkFragmentFrame f k (chunkSplit f.payload).length i
            ((chunkSplit f.payload).getD i [])) by
      unfold fragmentFrame
      rw [← hdecomp]]
    rw [← groupStateOf_nil peer k (chunkSplit f.payload).length now
      (fun j => (chunkSplit f.payload).getD j [])]
    exact runFrames_fragment_group f peer k (chunkSplit f.payload).length now
      (fun j => (chunkSplit f.payload).getD j []) hh hk hN64
      (List.range ((chunkSplit f.payload).length - 1))
      ((chunkSplit f.payload).length - 1) []
      (by rw [List.nil_append, ← hdecomp])
  have hflagslast : (mkFragmentFrame f k (chunkSplit f.payload).length
      ((chunkSplit f.payload).length - 1)
      ((chunkSplit f.payload).getD ((chunkSplit f.payload).length - 1) [])).flags =
      setFlag f.flags FRAG := by
    unfold mkFragmentFrame
    rw [if_pos (by omega)]
  have hcfheaders : (completeFrame (mkFragmentFrame f k
      (chunkSplit f.payload).length ((chunkSplit f.payload).length - 1)
      ((chunkSplit f.payload).getD ((chunkSplit f.payload).length - 1) []))
      ((List.range (chunkSplit f.payload).length).map
        (fun j => (chunkSplit f.payload).getD j [])).flatten).headers =
      f.headers := by
    unfold completeFrame mkFragmentFrame
    simp only []
    exact filter_nonFrag_fragment f k _ _ hh
  have hack : processAckOf (completeFrame (mkFragmentFrame f k
      (chunkSplit f.payload).length ((chunkSplit f.payload).length - 1)
      ((chunkSplit f.payload).getD ((chunkSplit f.payload).length - 1) []))
      ((List.range (chunkSplit f.payload).length).map
        (fun j => (chunkSplit f.payload).getD j [])).flatten) =
      some (ackFrame m) := by
    unfold processAckOf
    rw [show (completeFrame (mkFragmentFrame f k (chunkSplit f.payload).length
        ((chunkSplit f.payload).length - 1)
        ((chunkSplit f.payload).getD ((chunkSplit f.payload).length - 1) []))
        ((List.range (chunkSplit f.payload).length).map
          (fun j => (chunkSplit f.payload).getD j [])).flatten).flags =
      setFlag f.flags FRAG from hflagslast]
    rw [if_pos (by rw [hasFlag_setFlag_frag_reqAck, hreq])]
    rw [hcfheaders, hmsg]
    rfl
  refine ⟨?_, ?_, ?_, ?_⟩
  · intro i hi
    rw [hlen] at hi
    have hgd : (fragmentFrame f k).getD i dfltFrame =
        mkFragmentFrame f k (chunkSplit f.payload).length i
          ((chunkSplit f.payload).getD i []) := by
      unfold fragmentFrame
      exact getD_map_range _ _ _ _ (by omega)
    rw [hgd]
    unfold mkFragmentFrame
    simp only []
    rw [if_neg (by omega)]
    exact hasFlag_clearFlag_reqAck f.flags
  · rw [hlen]
    have hgd : (fragmentFrame f k).getD ((chunkSplit f.payload).length - 1)
        dfltFrame = mkFragmentFrame f k (chunkSplit f.payload).length
          ((chunkSplit f.payload).length - 1)
          ((chunkSplit f.payload).getD ((chunkSplit f.payload).length - 1) []) := by
      unfold fragmentFrame
      exact getD_map_range _ _ _ _ (by omega)
    rw [hgd, hflagslast, hasFlag_setFlag_frag_reqAck]
    exact hreq
  · rw [hrun]
    simp only [List.map_cons, List.map_nil]
    rw [show (completeFrame (mkFragmentFrame f k (chunkSplit f.payload).length
        ((chunkSplit f.payload).length - 1)
        ((chunkSplit f.payload).getD ((chunkSplit f.payload).length - 1) []))
        ((List.range (chunkSplit f.payload).length).map
          (fun j => (chunkSplit f.payload).getD j [])).flatten).flags =
      setFlag f.flags FRAG from hflagslast]
    rw [hasFlag_setFlag_frag_reqAck, hreq]
  · rw [hrun, hack]
    rfl

set_option maxRecDepth 100000 in
/-- C3 witness for the amended claim: `exBig` in index order emits exactly one
ACK for `msg-id` 7 and delivers one frame with `REQ_ACK` set. -/
theorem claim_C3_amended_witness :
    ((runFrames [] 0 0 (fragmentFrame exBig 5)).2.1.map
      (fun g => hasFlag g.flags REQ_ACK)) = [true] ∧
    (runFrames [] 0 0 (fragmentFrame exBig 5)).2.2 = [ackFrame 7] := by
  have h := claim_C3_amended exBig 5 0 0 7 (by decide) (by decide) (by decide)
    (by decide) (by decide) (by decide)
  exact ⟨h.2.2.1, h.2.2.2⟩


/-- C6 counterexample: `exDouble` has `REQ_ACK` set and carries a `msg-id`
header whose value parses as the 64-bit decimal 7, yet no ACK is produced:
the scan of `extract_msg_id` aborts on the earlier `msg-id` header whose
value `0xFF` is not valid UTF-8 (the `?` on `.ok()` in the source). -/
theorem claim_C6_counterexample :
    hasFlag exDouble.flags REQ_ACK = true ∧
    (⟨[109, 115, 103, 45, 105, 100], [55]⟩ : Header) ∈ exDouble.headers ∧
    parseU64 [55] = some 7 ∧
    extract_fragment_info exDouble = none ∧
    (handleDecoded [] 0 0 exDouble).2.2 = none := by decide

/-- C6 (amended): for every received datagram frame with `REQ_ACK` set whose
`msg-id` header values are all valid UTF-8 and at least one of which parses
as an unsigned 64-bit decimal, the receiver delivers the frame and sends to
the origin an ACK frame with type `ACK`, empty flags, exactly one header
`msg-id` whose value is the decimal string of the first parsed id, and an
empty payload. -/
theorem claim_C6_amended (st : ReasmState) (peer now : Nat) (f : Frame) (m : Nat)
    (hfrag : extract_fragment_info f = none)
    (hreq : hasFlag f.flags REQ_ACK = true)
    (hutf : ∀ h ∈ f.headers, h.key = msgIdKey → isValidUtf8 h.value = true)
    (hfirst : firstMsgId f.headers = some m) :
    handleDecoded st peer now f = (st, some f, some (ackFrame m)) ∧
    (ackFrame m).typ = .Ack ∧ (ackFrame m).flags = 0 ∧
    (ackFrame m).headers = [⟨msgIdKey, decStr m⟩] ∧ (ackFrame m).payload = [] := by
  refine ⟨?_, rfl, rfl, rfl, rfl⟩
  unfold handleDecoded
  rw [hfrag]
  simp only []
  unfold processAckOf
  rw [if_pos (by rw [hreq])]
  rw [extract_msg_id_eq_firstMsgId f.headers hutf, hfirst]
  rfl

/-- C6 witness for the amended claim: `exSingleMsg` yields the ACK for id 7. -/
theorem claim_C6_amended_witness :
    handleDecoded [] 0 0 exSingleMsg = ([], some exSingleMsg, some (ackFrame 7)) ∧
    (ackFrame 7).typ = .Ack ∧ (ackFrame 7).flags = 0 ∧
    (ackFrame 7).headers = [⟨msgIdKey, decStr 7⟩] ∧ (ackFrame 7).payload = [] :=
  claim_C6_amended [] 0 0 exSingleMsg 7 (by decide) (by decide) (by decide)
    (by decide)

/-- C8: a decode error on the datagram binding drops the offending datagram
without surfacing an error and the receive loop continues identically on the
remaining datagrams; a decode error on the stream binding terminates the
session (nothing after the error is delivered) while the accept loop keeps
handling every connection independently. -/
theorem claim_C8_error_policy :
    (∀ (st : ReasmState) (now peer : Nat) (d : List Nat)
       (ds : List (Nat × List Nat)) (e : VstpError),
       try_decode_frame d 65536 = .error e →
       udpRunBytes st now ((peer, d) :: ds) = udpRunBytes st now ds) ∧
    (∀ (frames : List Frame) (e : VstpError) (post : List (Except VstpError Frame)),
       tcpSessionDeliveries ((frames.map Except.ok) ++ .error e :: post) = frames) ∧
    (∀ (c : List (Except VstpError Frame))
       (cs : List (List (Except VstpError Frame))),
       tcpAcceptLoop (c :: cs) = tcpSessionDeliveries c :: tcpAcceptLoop cs) := by
  refine ⟨?_, ?_, ?_⟩
  · intro st now peer d ds e hdec
    rw [udpRunBytes]
    unfold handle_frame
    rw [hdec]
    simp
  · intro frames e post
    induction frames with
    | nil => rfl
    | cons a t ih =>
      simp only [List.map_cons, List.cons_append]
      rw [tcpSessionDeliveries, ih]
  · intro c cs
    rfl

/-- C8 witness: a 12-zero-byte datagram (bad magic) is dropped and the loop
continues; a TCP session delivers the frames before an error and nothing
after it; the accept loop handles the next connection after a failed one. -/
theorem claim_C8_error_policy_witness :
    udpRunBytes [] 0 [(0, List.replicate 12 0), (0, encodeBytes exHello)] =
      udpRunBytes [] 0 [(0, encodeBytes exHello)] ∧
    tcpSessionDeliveries (([exHello].map Except.ok) ++
      .error .BadMagic :: [.ok exData42]) = [exHello] ∧
    tcpAcceptLoop ([.error .Io] :: [[.ok exHello]]) =
      tcpSessionDeliveries [.error .Io] :: tcpAcceptLoop [[.ok exHello]] :=
  ⟨claim_C8_error_policy.1 [] 0 0 (List.replicate 12 0)
      [(0, encodeBytes exHello)] .BadMagic (by decide),
   claim_C8_error_policy.2.1 [exHello] .BadMagic [.ok exData42],
   claim_C8_error_policy.2.2 [.error .Io] [[.ok exHello]]⟩

/-- C9: whenever a fragment completes a reassembly group, the frame surfaced
to the user handler is the completing fragment with its payload replaced by
the assembled bytes and the three fragment headers removed; version, type,
flags and the remaining headers come from that completing fragment, and none
of `frag-id`, `frag-index`, `frag-total` is present. -/
theorem claim_C9_reassembled_frame (st : ReasmState) (peer now : Nat) (g : Frame)
    (info : FragInfo) (st' : ReasmState) (data : List Nat)
    (hinfo : extract_fragment_info g = some info)
    (hadd : addFragment st peer now info = (st', some data)) :
    (handleDecoded st peer now g).2.1 = some (completeFrame g data) ∧
    (completeFrame g data).version = g.version ∧
    (completeFrame g data).typ = g.typ ∧
    (completeFrame g data).flags = g.flags ∧
    (completeFrame g data).headers = g.headers.filter nonFragHeader ∧
    (completeFrame g data).payload = data ∧
    (∀ h ∈ (completeFrame g data).headers,
      ¬h.key = fragIdKey ∧ ¬h.key = fragIndexKey ∧ ¬h.key = fragTotalKey) := by
  refine ⟨?_, rfl, rfl, rfl, rfl, rfl, ?_⟩
  · unfold handleDecoded
    rw [hinfo]
    simp only []
    rw [hadd]
  · intro h hm
    exact nonFragHeader_spec h (List.of_mem_filter hm)

/-- C9 witness: the single-fragment frame `exFragOne` completes its group at
once and is delivered with the fragment headers stripped. -/
theorem claim_C9_reassembled_frame_witness :
    (handleDecoded [] 0 0 exFragOne).2.1 = some (completeFrame exFragOne [1, 2]) ∧
    (completeFrame exFragOne [1, 2]).version = exFragOne.version ∧
    (completeFrame exFragOne [1, 2]).typ = exFragOne.typ ∧
    (completeFrame exFragOne [1, 2]).flags = exFragOne.flags ∧
    (completeFrame exFragOne [1, 2]).headers =
      exFragOne.headers.filter nonFragHeader ∧
    (completeFrame exFragOne [1, 2]).payload = [1, 2] ∧
    (∀ h ∈ (completeFrame exFragOne [1, 2]).headers,
      ¬h.key = fragIdKey ∧ ¬h.key = fragIndexKey ∧ ¬h.key = fragTotalKey) :=
  claim_C9_reassembled_frame [] 0 0 exFragOne ⟨5, 0, 1, [1, 2]⟩ [] [1, 2]
    (by decide) rfl

/-- C10: a received frame with `REQ_ACK` set but no `msg-id` header that
parses as an unsigned 64-bit decimal produces no ACK and no error, and is
delivered to the user handler exactly like any other complete frame, with the
reassembly state untouched. -/
theorem claim_C10_unparseable_msgid (st : ReasmState) (peer now : Nat) (f : Frame)
    (hfrag : extract_fragment_info f = none)
    (hreq : hasFlag f.flags REQ_ACK = true)
    (hnone : ∀ h ∈ f.headers, h.key = msgIdKey → parseU64 h.value = none) :
    handleDecoded st peer now f = (st, some f, none) := by
  unfold handleDecoded
  rw [hfrag]
  simp only []
  unfold processAckOf
  rw [extract_msg_id_none_of_unparseable f.headers hnone]
  simp

/-- C10 witness: `exNoParse` (msg-id value `"x"`) is delivered with no ACK. -/
theorem claim_C10_unparseable_msgid_witness :
    handleDecoded [] 0 0 exNoParse = ([], some exNoParse, none) :=
  claim_C10_unparseable_msgid [] 0 0 exNoParse (by decide) (by decide) (by decide)

end VSTP
